import Mathlib

/-!
Verification of the model/operation core of the ckeditor5-engine repository.

The development shallowly embeds the JavaScript sources:

* `src/treemodel/liverange.js` — the `fixBoundaries` listener that re-anchors a
  `LiveRange` on every document `'change'` event;
* `src/model/markercollection.js` — `MarkerCollection` and `Marker`;
* the `NoOperation` and `RemoveOperation` operation classes;
* the `change`/`enqueueChange` batching scheduler of `Model` (whose
  implementation file is not part of this source snapshot; it is modelled
  from the specification and validated against the behaviour recorded in
  `tests/model/model.js`).

Pure functions are Lean functions; event emission is made explicit by
returning the list of fired events next to the new state; JavaScript `throw`
is `Except.error`.
-/

namespace CKE

/-- Types of document `'change'` events, as enumerated by the specification
(`'insert' | 'move' | 'remove' | 'reinsert' | 'attribute' | 'rename' | 'marker'`).
`attr` embeds `'attribute'`. -/
inductive ChangeType
  | insert
  | move
  | remove
  | reinsert
  | attr
  | rename
  | marker
deriving DecidableEq, Repr

/-- A range over positions of type `P`: an ordered pair of boundary positions.
`stop` embeds the JavaScript field `end` (a reserved word in Lean). -/
structure Rng (P : Type) where
  start : P
  stop : P
deriving DecidableEq, Repr

/-- Embedding of `fixBoundaries` from `src/treemodel/liverange.js`.

The function is parametrised over the primitives the source calls on objects
whose classes are outside this snapshot (`position.js` / `range.js`):
`touch` embeds `Position#isTouching`, `offsetOf` embeds `Position#offset`,
`tbi` embeds `Range#getTransformedByInsertion(insertPosition, howMany)` and
`tbm` embeds `Range#getTransformedByMove(sourcePosition, targetPosition, howMany)`,
both returning the list of result ranges.

Source, line by line:
`howMany = range.end.offset - range.start.offset`; on `'insert'` the range
becomes `getTransformedByInsertion(range.start, howMany)[0]`; on `'move'`,
`'remove'`, `'reinsert'` it becomes `getTransformedByMove(position, range.start,
howMany)[0]`, expanded over the second result range when that one is touching;
on any other type `updated` stays `undefined` and the boundaries are kept. -/
def fixBoundaries {P : Type}
    (touch : P → P → Bool)
    (offsetOf : P → Nat)
    (tbi : Rng P → P → Nat → List (Rng P))
    (tbm : Rng P → P → P → Nat → List (Rng P))
    (type : ChangeType) (range : Rng P) (position : P) (self : Rng P) : Rng P :=
  let howMany := offsetOf range.stop - offsetOf range.start
  match type with
  | ChangeType.insert =>
    match tbi self range.start howMany with
    | updated :: _ => updated
    | [] => self
  | ChangeType.move | ChangeType.remove | ChangeType.reinsert =>
    match tbm self position range.start howMany with
    | [] => self
    | updated :: rest =>
      match rest with
      | [] => updated
      | otherRange :: _ =>
        if touch updated.start otherRange.stop then
          { start := otherRange.start, stop := updated.stop }
        else if touch updated.stop otherRange.start then
          { start := updated.start, stop := otherRange.stop }
        else
          updated
  | _ => self

/-- Modelled from the spec: the re-anchoring policy for a move, stated in the
specification's words — the first returned fragment (the untouched remainder)
is taken as the result; when a second fragment (the moved remainder) exists
and is touching the first (the first fragment's start touching the second's
end, or the first fragment's end touching the second's start) the result is
expanded to one contiguous range covering both; otherwise the first fragment
stands alone. An empty transform result leaves the range as it was. -/
def specMoveUpdate {P : Type} (touch : P → P → Bool)
    (result : List (Rng P)) (self : Rng P) : Rng P :=
  match result with
  | [] => self
  | first :: rest =>
    match rest with
    | [] => first
    | second :: _ =>
      if touch first.start second.stop then
        { start := second.start, stop := first.stop }
      else if touch first.stop second.start then
        { start := first.start, stop := second.stop }
      else
        first

/-- C1: on a document `'change'` event of type `'move'`, `'remove'` or
`'reinsert'` with affected range `range` and source position `position`, the
LiveRange's new boundaries are exactly the specification's merge policy
applied to `getTransformedByMove(position, range.start,
range.end.offset - range.start.offset)`. -/
theorem liveRange_move_reanchor {P : Type}
    (touch : P → P → Bool) (offsetOf : P → Nat)
    (tbi : Rng P → P → Nat → List (Rng P))
    (tbm : Rng P → P → P → Nat → List (Rng P))
    (type : ChangeType) (range : Rng P) (position : P) (self : Rng P)
    (h : type = ChangeType.move ∨ type = ChangeType.remove ∨ type = ChangeType.reinsert) :
    fixBoundaries touch offsetOf tbi tbm type range position self =
      specMoveUpdate touch
        (tbm self position range.start (offsetOf range.stop - offsetOf range.start)) self := by
  rcases h with h | h | h <;> subst h <;> simp only [fixBoundaries, specMoveUpdate]

/-- Witness for C1: the merge policy evaluated on a concrete two-fragment
transform result over `P = Nat` where the fragments are touching. -/
theorem liveRange_move_reanchor_witness :
    fixBoundaries (P := Nat) (fun a b => a == b) id
      (fun _ _ _ => []) (fun _ _ _ _ => [⟨5, 7⟩, ⟨2, 5⟩])
      ChangeType.move ⟨0, 3⟩ 9 ⟨2, 7⟩ = ⟨2, 7⟩ := by
  have h := liveRange_move_reanchor (P := Nat) (fun a b => a == b) id
    (fun _ _ _ => []) (fun _ _ _ _ => [⟨5, 7⟩, ⟨2, 5⟩])
    ChangeType.move ⟨0, 3⟩ 9 ⟨2, 7⟩ (Or.inl rfl)
  rw [h]
  simp [specMoveUpdate]

/-- C9: a document `'change'` event whose type is none of `'insert'`,
`'move'`, `'remove'`, `'reinsert'` (e.g. `'attribute'`, `'rename'`,
`'marker'`) leaves the LiveRange's boundaries exactly unchanged. -/
theorem liveRange_other_change_frame {P : Type}
    (touch : P → P → Bool) (offsetOf : P → Nat)
    (tbi : Rng P → P → Nat → List (Rng P))
    (tbm : Rng P → P → P → Nat → List (Rng P))
    (type : ChangeType) (range : Rng P) (position : P) (self : Rng P)
    (h : type ≠ ChangeType.insert ∧ type ≠ ChangeType.move ∧
         type ≠ ChangeType.remove ∧ type ≠ ChangeType.reinsert) :
    fixBoundaries touch offsetOf tbi tbm type range position self = self := by
  obtain ⟨h1, h2, h3, h4⟩ := h
  cases type <;> first
    | exact absurd rfl h1
    | exact absurd rfl h2
    | exact absurd rfl h3
    | exact absurd rfl h4
    | rfl

/-- Witness for C9: an `'attribute'` change leaves a concrete range over
`P = Nat` untouched even when the transform primitives would move it. -/
theorem liveRange_other_change_frame_witness :
    fixBoundaries (P := Nat) (fun a b => a == b) id
      (fun _ _ _ => [⟨100, 200⟩]) (fun _ _ _ _ => [⟨100, 200⟩])
      ChangeType.attr ⟨0, 3⟩ 9 ⟨2, 7⟩ = ⟨2, 7⟩ :=
  liveRange_other_change_frame (P := Nat) (fun a b => a == b) id
    (fun _ _ _ => [⟨100, 200⟩]) (fun _ _ _ _ => [⟨100, 200⟩])
    ChangeType.attr ⟨0, 3⟩ 9 ⟨2, 7⟩
    ⟨by decide, by decide, by decide, by decide⟩

/-- A concrete tree-model position: a root identifier and a path of offsets,
as in `src/model/position.js` (`{root, path}`). Only equality of positions is
needed by the marker claims. -/
structure Pos where
  root : Nat
  path : List Nat
deriving DecidableEq, Repr

/-- Concrete model ranges used by markers. `Range#isEqual` is equality of both
boundaries, which is definitional equality here. -/
abbrev MRange := Rng Pos

/-- Embedding of `Marker` from `src/model/markercollection.js`. `liveRange`
embeds the `_liveRange` field; `none` embeds the `null` it is set to by
`MarkerCollection#_destroyMarker` (a detached live range carries no further
state that the marker claims observe, so a live range is carried as its
current range). -/
structure Marker where
  name : String
  liveRange : Option MRange
  managedUsingOperations : Bool
deriving DecidableEq, Repr

/-- The `marker-destroyed` error message thrown by `Marker` methods. -/
def markerDestroyedMsg : String :=
  "marker-destroyed: Cannot use a destroyed marker instance."

/-- Embedding of `Marker#getStart`: throws `marker-destroyed` when
`_liveRange` is null, else returns a plain copy of the start position. -/
def Marker.getStart (m : Marker) : Except String Pos :=
  match m.liveRange with
  | none => Except.error markerDestroyedMsg
  | some r => Except.ok r.start

/-- Embedding of `Marker#getEnd`: throws `marker-destroyed` when `_liveRange`
is null, else returns a plain copy of the end position. -/
def Marker.getEnd (m : Marker) : Except String Pos :=
  match m.liveRange with
  | none => Except.error markerDestroyedMsg
  | some r => Except.ok r.stop

/-- Embedding of `Marker#getRange`: throws `marker-destroyed` when
`_liveRange` is null, else returns a plain `Range` copy of the live range. -/
def Marker.getRange (m : Marker) : Except String MRange :=
  match m.liveRange with
  | none => Except.error markerDestroyedMsg
  | some r => Except.ok r

/-- Embedding of `MarkerCollection`: the `_markers` map, as its list of values
in insertion order (keys are the marker names, unique by `Map` semantics). -/
structure MarkerCollection where
  markers : List Marker
deriving DecidableEq, Repr

/-- Embedding of `MarkerCollection#get`:
`this._markers.get( markerName ) || null` — the marker stored under the name,
or `none` for `null`. -/
def MarkerCollection.get (c : MarkerCollection) (markerName : String) : Option Marker :=
  c.markers.find? (fun m => m.name == markerName)

/-- Embedding of `MarkerCollection#has`: `this._markers.has( markerName )`. -/
def MarkerCollection.has (c : MarkerCollection) (markerName : String) : Bool :=
  c.markers.any (fun m => m.name == markerName)

/-- Events fired by `MarkerCollection` (`'set:name'` / `'remove:name'`,
carrying the marker). -/
inductive MarkerEvent
  | set (markerName : String) (marker : Marker)
  | remove (markerName : String) (marker : Marker)
deriving DecidableEq, Repr

/-- Embedding of `MarkerCollection#_destroyMarker`: stops the marker's
listeners, detaches its live range and nulls the `_liveRange` field. -/
def destroyMarker (m : Marker) : Marker :=
  { m with liveRange := none }

/-- Result of `MarkerCollection#_remove`: the new collection, the fired
events, the returned boolean, and the state of the destroyed marker object
(when one existed). -/
structure RemoveResult where
  collection : MarkerCollection
  events : List MarkerEvent
  existed : Bool
  destroyed : Option Marker
deriving DecidableEq, Repr

/-- Embedding of `MarkerCollection#_remove`: when a marker with the name is
stored, it is deleted from the map, a `remove` event carrying it fires, it is
destroyed, and `true` is returned; otherwise nothing happens and `false` is
returned. `Map.delete` is embedded as keeping every entry whose key differs. -/
def MarkerCollection.removeMarker (c : MarkerCollection) (markerName : String) : RemoveResult :=
  match c.get markerName with
  | some oldMarker =>
    { collection := ⟨c.markers.filter (fun m => m.name != markerName)⟩
      events := [MarkerEvent.remove markerName oldMarker]
      existed := true
      destroyed := some (destroyMarker oldMarker) }
  | none =>
    { collection := c, events := [], existed := false, destroyed := none }

/-- Result of `MarkerCollection#_set`: the new collection, the fired events,
and the returned marker. -/
structure SetResult where
  collection : MarkerCollection
  events : List MarkerEvent
  marker : Marker
deriving DecidableEq, Repr

/-- Embedding of `MarkerCollection#_set`: when a marker of that name exists,
its current range is read via `getRange()` (which throws on a destroyed
marker — hence the `Except`); an equal range together with an equal
managed-flag returns the old marker with no event; otherwise the old marker
is `_remove`d (firing `remove`) and a fresh live-range-backed marker is
stored and returned, firing `set`. -/
def MarkerCollection.setMarker (c : MarkerCollection) (markerName : String)
    (range : MRange) (managedUsingOperations : Bool) : Except String SetResult :=
  match c.get markerName with
  | some oldMarker =>
    match oldMarker.getRange with
    | Except.error e => Except.error e
    | Except.ok oldRange =>
      if oldRange = range ∧ oldMarker.managedUsingOperations = managedUsingOperations then
        Except.ok { collection := c, events := [], marker := oldMarker }
      else
        Except.ok
          { collection :=
              ⟨(c.removeMarker markerName).collection.markers ++
                [⟨markerName, some range, managedUsingOperations⟩]⟩
            events :=
              (c.removeMarker markerName).events ++
                [MarkerEvent.set markerName ⟨markerName, some range, managedUsingOperations⟩]
            marker := ⟨markerName, some range, managedUsingOperations⟩ }
  | none =>
    Except.ok
      { collection := ⟨c.markers ++ [⟨markerName, some range, managedUsingOperations⟩]⟩
        events := [MarkerEvent.set markerName ⟨markerName, some range, managedUsingOperations⟩]
        marker := ⟨markerName, some range, managedUsingOperations⟩ }

/-- JavaScript `String.prototype.startsWith`: the second string is a prefix
of the first, embedded over the character lists. -/
def strStartsWith (s pre : String) : Bool :=
  pre.data.isPrefixOf s.data

/-- Embedding of `MarkerCollection#getMarkersGroup`: the markers whose name
starts with the group name followed by the `':'` separator
(`marker.name.startsWith( prefix + ':' )`), in collection order. -/
def MarkerCollection.getMarkersGroup (c : MarkerCollection) (pre : String) : List Marker :=
  c.markers.filter (fun m => strStartsWith m.name (pre ++ ":"))

/-- A concrete range used by the witnesses: `[ [0], [2] )` in root `0`. -/
def sampleRange : MRange := ⟨⟨0, [0]⟩, ⟨0, [2]⟩⟩

/-- A second, different concrete range used by the witnesses. -/
def sampleRange2 : MRange := ⟨⟨0, [3]⟩, ⟨0, [5]⟩⟩

/-- A concrete stored marker used by the witnesses. -/
def sampleMarker : Marker := ⟨"search", some sampleRange, false⟩

/-- A concrete collection holding `sampleMarker` used by the witnesses. -/
def sampleCollection : MarkerCollection := ⟨[sampleMarker]⟩

/-- C2: `_set` on a name whose stored marker has an equal range and the same
managed-flag fires no event and returns the existing marker unchanged; on a
different range it fires `remove` for the old marker and then `set` for the
newly created marker, which is returned. -/
theorem markerCollection_set_spec
    (c : MarkerCollection) (markerName : String) (range : MRange) (managed : Bool)
    (old : Marker) (oldRange : MRange)
    (hget : c.get markerName = some old)
    (hlive : old.liveRange = some oldRange) :
    (oldRange = range ∧ old.managedUsingOperations = managed →
      c.setMarker markerName range managed = Except.ok ⟨c, [], old⟩)
    ∧ (oldRange ≠ range →
      c.setMarker markerName range managed =
        Except.ok
          ⟨⟨c.markers.filter (fun m => m.name != markerName) ++
              [⟨markerName, some range, managed⟩]⟩,
           [MarkerEvent.remove markerName old,
            MarkerEvent.set markerName ⟨markerName, some range, managed⟩],
           ⟨markerName, some range, managed⟩⟩) := by
  constructor
  · rintro ⟨h1, h2⟩
    subst h1
    simp [MarkerCollection.setMarker, hget, Marker.getRange, hlive, h2]
  · intro hne
    simp [MarkerCollection.setMarker, hget, Marker.getRange, hlive, hne,
      MarkerCollection.removeMarker]

/-- Witness for C2: re-setting `search` to the identical range and flag is a
no-op returning the stored marker, while setting a different range fires
`remove` then `set` and returns the fresh marker. -/
theorem markerCollection_set_spec_witness :
    sampleCollection.setMarker "search" sampleRange false =
      Except.ok ⟨sampleCollection, [], sampleMarker⟩
    ∧ sampleCollection.setMarker "search" sampleRange2 false =
      Except.ok
        ⟨⟨[⟨"search", some sampleRange2, false⟩]⟩,
         [MarkerEvent.remove "search" sampleMarker,
          MarkerEvent.set "search" ⟨"search", some sampleRange2, false⟩],
         ⟨"search", some sampleRange2, false⟩⟩ := by
  have h := markerCollection_set_spec sampleCollection "search" sampleRange false
    sampleMarker sampleRange (by decide) (by decide)
  have h2 := markerCollection_set_spec sampleCollection "search" sampleRange2 false
    sampleMarker sampleRange (by decide) (by decide)
  exact ⟨h.1 ⟨rfl, rfl⟩, (h2.2 (by decide)).trans (congrArg Except.ok (by decide))⟩

/-- C7: `_remove` returns `true` exactly when a marker of the name existed;
then it deletes that marker from the collection (a `get` afterwards yields
nothing), fires a single `remove` event carrying it, and nulls the destroyed
marker's live range; on a missing name it returns `false`, fires nothing and
leaves the collection as it was. -/
theorem markerCollection_remove_spec (c : MarkerCollection) (markerName : String) :
    ((c.removeMarker markerName).existed = true ↔ c.get markerName ≠ none)
    ∧ (∀ old, c.get markerName = some old →
        c.removeMarker markerName =
          ⟨⟨c.markers.filter (fun m => m.name != markerName)⟩,
           [MarkerEvent.remove markerName old], true,
           some { old with liveRange := none }⟩
        ∧ (c.removeMarker markerName).collection.get markerName = none)
    ∧ (c.get markerName = none → c.removeMarker markerName = ⟨c, [], false, none⟩) := by
  refine ⟨?_, ?_, ?_⟩
  · cases hget : c.get markerName <;> simp [MarkerCollection.removeMarker, hget]
  · intro old hget
    constructor
    · simp [MarkerCollection.removeMarker, hget, destroyMarker]
    · have hget2 : c.markers.find? (fun m => m.name == markerName) = some old := hget
      simp only [MarkerCollection.removeMarker, MarkerCollection.get, hget2]
      rw [List.find?_eq_none]
      intro m hm
      have := (List.mem_filter.mp hm).2
      simpa using this
  · intro hget
    simp [MarkerCollection.removeMarker, hget]

/-- Witness for C7: removing `search` from the sample collection empties it,
fires the `remove` event, reports `true` and nulls the marker's live range;
removing a missing name reports `false` with no event. -/
theorem markerCollection_remove_spec_witness :
    sampleCollection.removeMarker "search" =
      ⟨⟨[]⟩, [MarkerEvent.remove "search" sampleMarker], true,
       some ⟨"search", none, false⟩⟩
    ∧ sampleCollection.removeMarker "absent" = ⟨sampleCollection, [], false, none⟩ := by
  have h := (markerCollection_remove_spec sampleCollection "search").2.1
    sampleMarker (by decide)
  have h2 := (markerCollection_remove_spec sampleCollection "absent").2.2 (by decide)
  exact ⟨h.1.trans (by decide), h2⟩

/-- C6: a marker that was destroyed by being removed from its collection (its
live range detached and nulled) throws `marker-destroyed` from `getStart`,
`getEnd` and `getRange` alike. -/
theorem marker_destroyed_methods_throw
    (c : MarkerCollection) (markerName : String) (m : Marker)
    (h : (c.removeMarker markerName).destroyed = some m) :
    m.getStart = Except.error markerDestroyedMsg
    ∧ m.getEnd = Except.error markerDestroyedMsg
    ∧ m.getRange = Except.error markerDestroyedMsg := by
  have hm : m.liveRange = none := by
    unfold MarkerCollection.removeMarker at h
    cases hget : c.get markerName <;> rw [hget] at h
    · exact absurd h (by simp)
    · obtain rfl := Option.some.inj h
      rfl
  exact ⟨by simp [Marker.getStart, hm], by simp [Marker.getEnd, hm],
    by simp [Marker.getRange, hm]⟩

/-- Witness for C6: the marker destroyed by removing `search` from the sample
collection errors from all three accessors. -/
theorem marker_destroyed_methods_throw_witness :
    (⟨"search", none, false⟩ : Marker).getStart = Except.error markerDestroyedMsg
    ∧ (⟨"search", none, false⟩ : Marker).getEnd = Except.error markerDestroyedMsg
    ∧ (⟨"search", none, false⟩ : Marker).getRange = Except.error markerDestroyedMsg :=
  marker_destroyed_methods_throw sampleCollection "search" ⟨"search", none, false⟩
    (by decide)

/-- C8: `getMarkersGroup` yields exactly the stored markers whose name starts
with the group name followed by `':'`; concretely, group `foo` captures
`foo:a` but neither `foobar:a` nor `xfoo:a`. The result is a finite list and
every enumeration of it yields the same markers. -/
theorem markerCollection_getMarkersGroup_spec
    (c : MarkerCollection) (pre : String) (m : Marker) :
    (m ∈ c.getMarkersGroup pre ↔
      m ∈ c.markers ∧ strStartsWith m.name (pre ++ ":") = true)
    ∧ (MarkerCollection.mk
        [⟨"foo:a", some sampleRange, false⟩,
         ⟨"foobar:a", some sampleRange, false⟩,
         ⟨"xfoo:a", some sampleRange, false⟩]).getMarkersGroup "foo" =
        [⟨"foo:a", some sampleRange, false⟩] := by
  constructor
  · simp [MarkerCollection.getMarkersGroup, List.mem_filter]
  · decide

/-- C10: `get` answers the stored marker or `none` (the embedded `null`) and
nothing else, and `has` is `true` exactly when `get` answers a marker. -/
theorem markerCollection_get_has_spec (c : MarkerCollection) (markerName : String) :
    (c.has markerName = true ↔ c.get markerName ≠ none)
    ∧ (c.get markerName = none ∨
       ∃ m, c.get markerName = some m ∧ m ∈ c.markers ∧ m.name = markerName) := by
  constructor
  · rw [Option.ne_none_iff_isSome]
    simp [MarkerCollection.has, MarkerCollection.get, List.any_eq_true,
      List.find?_isSome]
  · cases hget : c.markers.find? (fun m => m.name == markerName) with
    | none => exact Or.inl hget
    | some val =>
      right
      refine ⟨val, hget, List.mem_of_find?_eq_some hget, ?_⟩
      have := List.find?_some hget
      simpa using this

/-- A root of the document: a named content root, or the special graveyard
root the document owns as holding area for removed nodes. -/
inductive RootKind
  | main (rootName : String)
  | graveyard
deriving DecidableEq, Repr

/-- A position addressed from a document root: the root and the path of
offsets, as in `Position` of the operation sources. -/
structure GPos where
  root : RootKind
  path : List Nat
deriving DecidableEq, Repr

/-- The data every `MoveOperation` carries (`RemoveOperation` and
`ReinsertOperation` are `MoveOperation` subclasses carrying no extra data). -/
structure MoveOperationData where
  sourcePosition : GPos
  howMany : Nat
  targetPosition : GPos
  baseVersion : Int
deriving DecidableEq, Repr

/-- `Position.createFromParentAndOffset( position.root.document.graveyard, 0 )`:
offset `0` of the graveyard root, whose own path is empty, so the position's
path is `[0]`. -/
def graveyardPosition : GPos := ⟨RootKind.graveyard, [0]⟩

/-- Embedding of the `RemoveOperation` constructor: a `MoveOperation` from
`position` to offset `0` of the owning document's graveyard root. -/
def RemoveOperation (position : GPos) (howMany : Nat) (baseVersion : Int) :
    MoveOperationData :=
  ⟨position, howMany, graveyardPosition, baseVersion⟩

/-- Modelled from the spec: the `ReinsertOperation` constructor
(a `MoveOperation` whose source is the graveyard and whose target is the
original position; its class file is not part of this source snapshot). It
carries exactly the `MoveOperation` data it is constructed with. -/
def ReinsertOperation (sourcePosition : GPos) (howMany : Nat)
    (targetPosition : GPos) (baseVersion : Int) : MoveOperationData :=
  ⟨sourcePosition, howMany, targetPosition, baseVersion⟩

/-- Embedding of `RemoveOperation#getReversed`:
`new ReinsertOperation( this.targetPosition, this.howMany, this.sourcePosition,
this.baseVersion + 1 )`. -/
def removeGetReversed (op : MoveOperationData) : MoveOperationData :=
  ReinsertOperation op.targetPosition op.howMany op.sourcePosition (op.baseVersion + 1)

/-- C4: a `RemoveOperation` targets offset `0` of the graveyard root, and its
reversal is a `ReinsertOperation` moving the same number of nodes from that
graveyard position back to the original position, with the base version
incremented by one. -/
theorem removeOperation_spec (position : GPos) (howMany : Nat) (baseVersion : Int) :
    (RemoveOperation position howMany baseVersion).targetPosition =
        ⟨RootKind.graveyard, [0]⟩
    ∧ removeGetReversed (RemoveOperation position howMany baseVersion) =
        ReinsertOperation ⟨RootKind.graveyard, [0]⟩ howMany position (baseVersion + 1) := by
  exact ⟨rfl, rfl⟩

/-- A node of the tree model: a text node or an element with a name and
children (attributes are irrelevant to the no-op claim and omitted from the
node shape only in that they never change under it; the state is pushed
through unchanged whatever it holds). -/
inductive ModelNode
  | text (data : String)
  | element (elementName : String) (children : List ModelNode)

/-- The tree model a document owns: its roots by name. -/
structure TreeModel where
  roots : List (String × List ModelNode)

/-- The data a `NoOperation` carries: only the base version. -/
structure NoOperationData where
  baseVersion : Int
deriving DecidableEq, Repr

/-- Embedding of `NoOperation#_execute`: the body is `// Do nothing.` — the
tree model is returned untouched. -/
def noOperationExecute (_op : NoOperationData) (doc : TreeModel) : TreeModel :=
  doc

/-- Embedding of `NoOperation#getReversed`:
`new NoOperation( this.baseVersion + 1 )`. -/
def noOperationGetReversed (op : NoOperationData) : NoOperationData :=
  ⟨op.baseVersion + 1⟩

/-- Embedding of `NoOperation#clone`: `new NoOperation( this.baseVersion )`. -/
def noOperationClone (op : NoOperationData) : NoOperationData :=
  ⟨op.baseVersion⟩

/-- C5: executing a `NoOperation` is the identity on the tree model, and its
reversal is again a `NoOperation` whose base version is exactly one greater. -/
theorem noOperation_spec (baseVersion : Int) (doc : TreeModel) :
    noOperationExecute ⟨baseVersion⟩ doc = doc
    ∧ noOperationGetReversed ⟨baseVersion⟩ = ⟨baseVersion + 1⟩ := by
  exact ⟨rfl, rfl⟩

/-- Modelled from the spec: a deep embedding of the callbacks passed to the
`Model` change-batching scheduler (whose implementation file is not part of
this source snapshot; `tests/model/model.js` records its behaviour). A
callback is a sequence of steps: log an observable string, call
`model.change` with a nested callback, or call `model.enqueueChange` with a
callback to be queued. -/
inductive Prog
  | log (s : String)
  | chg (body : List Prog)
  | enq (body : List Prog)

/-- Size of a program list, the termination measure of the scheduler: every
step counts one plus the size of its nested body. -/
def progsSize : List Prog → Nat
  | [] => 0
  | Prog.log _ :: rest => 1 + progsSize rest
  | Prog.chg body :: rest => 1 + progsSize body + progsSize rest
  | Prog.enq body :: rest => 1 + progsSize body + progsSize rest

theorem progsSize_append (a b : List Prog) :
    progsSize (a ++ b) = progsSize a + progsSize b := by
  induction a using progsSize.induct with
  | case1 => simp [progsSize]
  | case2 s rest ih => simp [progsSize, ih]; omega
  | case3 body rest ih => simp [progsSize, ih]; omega
  | case4 body rest ih => simp [progsSize, ih]; omega

/-- Modelled from the spec: running a callback body while a change block is
open. A `log` records its string; a nested `change` executes its callback
immediately, inline, within the same open block (call-stack nesting = batch
nesting); an `enqueueChange` only queues its callback. Returns the log
output and the queued callbacks in FIFO order. -/
def runBlock : List Prog → List String × List (List Prog)
  | [] => ([], [])
  | Prog.log s :: rest => (s :: (runBlock rest).1, (runBlock rest).2)
  | Prog.chg body :: rest => runBlock (body ++ rest)
  | Prog.enq body :: rest => ((runBlock rest).1, body :: (runBlock rest).2)
termination_by l => progsSize l
decreasing_by
  all_goals simp [progsSize, progsSize_append]

/-- Size of the pending-callback queue. -/
def queueSize : List (List Prog) → Nat
  | [] => 0
  | body :: rest => progsSize body + queueSize rest

theorem queueSize_append (a b : List (List Prog)) :
    queueSize (a ++ b) = queueSize a + queueSize b := by
  induction a with
  | nil => simp [queueSize]
  | cons body rest ih => simp [queueSize, ih]; omega

/-- Every callback queued by a block is a strict part of the block's own
program, so the queue a block produces is bounded by the block's size with
one unit to spare per queue entry. -/
theorem runBlock_queue_le (l : List Prog) :
    queueSize (runBlock l).2 + (runBlock l).2.length ≤ progsSize l := by
  induction l using runBlock.induct with
  | case1 => simp [runBlock, queueSize, progsSize]
  | case2 s rest ih =>
    simp only [runBlock, progsSize]
    omega
  | case3 body rest ih =>
    simp only [runBlock]
    calc queueSize (runBlock (body ++ rest)).2 + (runBlock (body ++ rest)).2.length
        ≤ progsSize (body ++ rest) := ih
      _ ≤ progsSize (Prog.chg body :: rest) := by
          simp only [progsSize, progsSize_append]
          omega
  | case4 body rest ih =>
    simp only [runBlock, queueSize, List.length_cons, progsSize]
    omega

/-- Modelled from the spec: the pending-changes loop of the scheduler. Each
queued callback runs as its own block (with a fresh writer), the single
completion event (`'_change'` / `changesDone`) for that block fires after it,
and callbacks it queued are appended to the pending queue in FIFO order. -/
def drainQueue : List (List Prog) → List (List String × List (List Prog))
  | [] => []
  | body :: rest => runBlock body :: drainQueue (rest ++ (runBlock body).2)
termination_by q => queueSize q + q.length
decreasing_by
  simp only [queueSize, queueSize_append, List.length_append, List.length_cons]
  have h := runBlock_queue_le body
  omega

/-- An item of the observable trace of one scheduler run: a logged string, or
the firing of the block-completion event. -/
inductive TraceItem
  | logged (s : String)
  | changesDone
deriving DecidableEq, Repr

/-- The trace of one pending-queue run: each drained block's log followed by
its completion event. -/
def queueTrace (q : List (List Prog)) : List TraceItem :=
  (drainQueue q).flatMap (fun r => r.1.map TraceItem.logged ++ [TraceItem.changesDone])

/-- Modelled from the spec: `model.change( callback )` invoked while no block
is open — the callback becomes the sole pending entry and the pending loop
runs it (together with everything it queues) to completion. -/
def modelChange (body : List Prog) : List TraceItem :=
  queueTrace [body]

/-- How many completion events a trace holds. -/
def changesDoneCount (tr : List TraceItem) : Nat :=
  tr.countP (fun t => t matches TraceItem.changesDone)

/-- C3: a `change` call made while a block is already open runs its callback
immediately, inline in the same block (so its output is interleaved at the
call site, before anything that follows, and is complete before the outer
call returns); concretely, `model.change(() => { model.change(() => log 'A');
log 'B' })` produces the trace `A`, `B`, completion event — with exactly one
completion event for the whole outermost block. -/
theorem model_change_nested_inline :
    (∀ body rest, runBlock (Prog.chg body :: rest) = runBlock (body ++ rest))
    ∧ modelChange [Prog.chg [Prog.log "A"], Prog.log "B"] =
        [TraceItem.logged "A", TraceItem.logged "B", TraceItem.changesDone]
    ∧ changesDoneCount (modelChange [Prog.chg [Prog.log "A"], Prog.log "B"]) = 1 := by
  refine ⟨fun body rest => ?_, ?_, ?_⟩
  · rw [runBlock]
  · simp [modelChange, queueTrace, drainQueue, runBlock]
  · simp [modelChange, queueTrace, drainQueue, runBlock, changesDoneCount]

end CKE
